import Mathlib

/-!
Shallow embedding of the mcp-fantastical MCP server (`src/index.ts`).

The server exposes six calendar tools over the MCP call-tool interface.  Each
tool either opens a Fantastical URL (`open "<url>"`) or runs an AppleScript
program through `osascript` and parses its pipe-delimited output.  External
effects (`child_process.exec`, the system clock, JavaScript `Date` parsing)
are modelled as an explicit environment of uninterpreted functions; every
other step of the handler is transcribed from the TypeScript source.
-/

/-- Outcome of a `child_process.exec` call: a resolution carries the captured
`stdout` and `stderr`; a rejection (`Except.error`) carries the rejection
error's message. -/
structure ExecResult where
  stdout : String
  stderr : String
deriving DecidableEq, Repr

/-- The external world a tool invocation can touch: `exec` models
`promisify(exec)` applied to a shell command line; `getTime` models
`new Date(s).getTime()` applied to the (possibly `undefined`) start field of a
parsed event; `nowIso` models `new Date().toISOString()` at the moment of the
invocation; `endIso d` models `new Date(y, m, day + d).toISOString()` built
from the current date as in `fantastical_get_upcoming`. -/
structure Env where
  exec : String → Except String ExecResult
  getTime : Option String → Int
  nowIso : String
  endIso : Int → String

/-- Truthiness of a JavaScript `string | undefined` value: `undefined` and the
empty string are falsy, every other string is truthy. -/
def jsTruthy : Option String → Bool
  | some s => s != ""
  | none => false

/-- JavaScript `v || d` on a `string | undefined` value `v`: the value itself
when truthy, otherwise the default `d`. -/
def jsOr (v : Option String) (d : String) : String :=
  match v with
  | some s => if s == "" then d else s
  | none => d

/-- JavaScript string coercion of a `string | undefined` value, as performed
by template literals and `URLSearchParams.append`: `undefined` prints as
"undefined". -/
def jsStringOf : Option String → String
  | some s => s
  | none => "undefined"

/-- Decidable substring test on character lists, the model of JavaScript
`String.prototype.includes`. -/
def listContainsSub (hay needle : List Char) : Bool :=
  match hay with
  | [] => needle.isEmpty
  | _ :: t => needle.isPrefixOf hay || listContainsSub t needle

/-- Model of `hay.includes(needle)` for JavaScript strings. -/
def jsIncludes (hay needle : String) : Bool :=
  listContainsSub hay.data needle.data

/-- Error code constant `CALENDAR_PERMISSION_ERROR` from the source
(declared, though the classifier matches on the substring "-1743"). -/
def CALENDAR_PERMISSION_ERROR : Int := -1743

/-- Transcribed from `isCalendarPermissionError`: an error is the
permission-denied condition exactly when its message contains "-1743" or
"Not authorised to send Apple events to Calendar".  Errors are modelled by
their message strings. -/
def isCalendarPermissionError (message : String) : Bool :=
  jsIncludes message "-1743" ||
    jsIncludes message "Not authorised to send Apple events to Calendar"

/-- The fixed remediation text `CALENDAR_PERMISSION_MESSAGE` from the source. -/
def CALENDAR_PERMISSION_MESSAGE : String :=
  "Calendar app permission denied.\n\nThis tool reads events from the macOS Calendar app (which Fantastical syncs with).\nTo fix this, grant Calendar automation permission:\n\n1. Open System Settings → Privacy & Security → Automation\n2. Find the app running this MCP server (e.g., Terminal, iTerm, VS Code, or Node)\n3. Enable the \"Calendar\" toggle\n\nNote: If running in a subprocess (like Claude Code), you may need to grant permission\nto the parent application or the Node.js process itself.\n\nAs a workaround, I can open Fantastical to show your calendar instead."

/-- Transcribed from `runAppleScriptMultiline`: escape backslashes and double
quotes, run `osascript -e "<script>"`; stderr with empty stdout is a failure;
every failure is wrapped with the "AppleScript error: " prefix. -/
def runAppleScriptMultiline (env : Env) (script : String) : Except String String :=
  let escapedScript := (script.replace "\\" "\\\\").replace "\"" "\\\""
  match env.exec ("osascript -e \"" ++ escapedScript ++ "\"") with
  | .ok r =>
      if r.stderr != "" && r.stdout == "" then
        .error ("AppleScript error: " ++ r.stderr)
      else
        .ok r.stdout.trim
  | .error m => .error ("AppleScript error: " ++ m)

/-- Transcribed from `openFantasticalUrl`: run `open "<url>"`, discarding the
captured output; a rejection propagates unwrapped. -/
def openFantasticalUrl (env : Env) (url : String) : Except String Unit :=
  match env.exec ("open \"" ++ url ++ "\"") with
  | .ok _ => .ok ()
  | .error m => .error m

/-- JavaScript `String.prototype.split` with a one-character separator, on the
character list of the string.  `split` never returns an empty array; a string
with no separator yields the singleton of the whole string. -/
def splitOnChar (sep : Char) : List Char → List (List Char)
  | [] => [[]]
  | c :: cs =>
      if c == sep then [] :: splitOnChar sep cs
      else (splitOnChar sep cs).modifyHead (c :: ·)

/-- `s.split(sep)` for a one-character separator, producing strings. -/
def jsSplit (s : String) (sep : Char) : List String :=
  (splitOnChar sep s.data).map String.mk

/-- One parsed calendar event, as destructured by
`const [calendar, title, start, end, location] = line.split("|")`.
Fields beyond the number of split pieces are JavaScript `undefined`, modelled
as `none`; `location` is defaulted to the empty string by `location || ""`. -/
structure CalendarEvent where
  calendar : Option String
  title : Option String
  start : Option String
  end_ : Option String
  location : String
deriving DecidableEq, Repr

/-- Transcribed from the `.map` step of the result parsing in
`fantastical_get_today` / `fantastical_get_upcoming`: split the line on "|"
and destructure into the five positional fields. -/
def parseEventLine (line : String) : CalendarEvent :=
  let fs := jsSplit line '|'
  { calendar := fs[0]?
    title := fs[1]?
    start := fs[2]?
    end_ := fs[3]?
    location := jsOr fs[4]? "" }

/-- The comparison passed to `.sort`: ascending by
`new Date(a.start).getTime()`. -/
def eventLE (getTime : Option String → Int) (a b : CalendarEvent) : Bool :=
  getTime a.start ≤ getTime b.start

/-- The unsorted event list of `fantastical_get_today`: split the raw output
on newlines, drop lines whose trim is falsy, parse each line. -/
def rawEventLines (result : String) : List CalendarEvent :=
  (((jsSplit result '\n').filter (fun line => line.trim != "")).map parseEventLine)

/-- Transcribed from the result parsing of `fantastical_get_today`
(lines 290-297): split, filter, map, then `.sort` by parsed start time
(JavaScript array sort is stable). -/
def parseEventsToday (getTime : Option String → Int) (result : String) :
    List CalendarEvent :=
  (rawEventLines result).mergeSort (eventLE getTime)

/-- Transcribed from the result parsing of `fantastical_get_upcoming`
(lines 358-365), which repeats the same split/filter/map/sort chain. -/
def parseEventsUpcoming (getTime : Option String → Int) (result : String) :
    List CalendarEvent :=
  (rawEventLines result).mergeSort (eventLE getTime)

/-- Transcribed from the `URLSearchParams` construction of
`fantastical_create_event`: always `s`; `add=1` when `addImmediately` (whose
destructuring default is `true`); `calendarName` when `calendar` is truthy;
`n` when `notes` is truthy. -/
def createEventParams (sentence : String) (calendar notes : Option String)
    (addImmediately : Bool) : List (String × String) :=
  [("s", sentence)]
    ++ (if addImmediately then [("add", "1")] else [])
    ++ (if jsTruthy calendar then [("calendarName", jsStringOf calendar)] else [])
    ++ (if jsTruthy notes then [("n", jsStringOf notes)] else [])

/-- Whether a query-parameter list carries a parameter named `k`. -/
def hasParam (ps : List (String × String)) (k : String) : Bool :=
  ps.any (fun p => p.1 == k)

/-- Parameter schema entry of a tool descriptor: JSON-schema `type` and
`description` of one property. -/
structure ParamSchema where
  type : String
  description : String
deriving DecidableEq, Repr

/-- One tool descriptor from the `TOOLS` array: name, description, and the
input schema's ordered properties and required-parameter list. -/
structure ToolDescriptor where
  name : String
  description : String
  properties : List (String × ParamSchema)
  required : List String
deriving DecidableEq, Repr

/-- Transcribed from the `TOOLS` array (lines 110-197): the static ordered
catalog of the six tool descriptors. -/
def TOOLS : List ToolDescriptor :=
  [ { name := "fantastical_create_event"
      description := "Create a calendar event using Fantastical's natural language parsing. Examples: 'Meeting with John tomorrow at 3pm', 'Dentist appointment Friday 10am', 'Call with team every Monday at 9am'"
      properties :=
        [ ("sentence",
            { type := "string"
              description := "Natural language description of the event (e.g., 'Lunch with Sarah tomorrow at noon')" })
        , ("calendar",
            { type := "string"
              description := "Optional: Target calendar name (e.g., 'Work', 'Personal')" })
        , ("notes",
            { type := "string"
              description := "Optional: Additional notes for the event" })
        , ("addImmediately",
            { type := "boolean"
              description := "Add immediately without showing Fantastical UI (default: true)" }) ]
      required := ["sentence"] }
  , { name := "fantastical_get_today"
      description := "Get today's calendar events. Note: Reads from macOS Calendar app (synced with Fantastical). Requires Calendar automation permission."
      properties := []
      required := [] }
  , { name := "fantastical_get_upcoming"
      description := "Get upcoming calendar events. Note: Reads from macOS Calendar app (synced with Fantastical). Requires Calendar automation permission."
      properties :=
        [ ("days",
            { type := "number"
              description := "Number of days to look ahead (default: 7)" }) ]
      required := [] }
  , { name := "fantastical_show_date"
      description := "Open Fantastical and navigate to a specific date"
      properties :=
        [ ("date",
            { type := "string"
              description := "Date to show (e.g., '2025-01-15', 'tomorrow', 'next monday')" }) ]
      required := ["date"] }
  , { name := "fantastical_get_calendars"
      description := "List all available calendars. Note: Reads from macOS Calendar app (synced with Fantastical). Requires Calendar automation permission."
      properties := []
      required := [] }
  , { name := "fantastical_search"
      description := "Search for events by text in Fantastical"
      properties :=
        [ ("query",
            { type := "string"
              description := "Search query (event title, location, or notes)" }) ]
      required := ["query"] } ]

/-- Hexadecimal digit character in uppercase, as produced by the percent
escapes of the ECMAScript URI functions. -/
def hexDigit (n : Nat) : Char :=
  if n < 10 then Char.ofNat (48 + n) else Char.ofNat (55 + n)

/-- Value of a hexadecimal digit character (0 for a non-digit; the decoder is
only applied to well-formed escapes in this development). -/
def hexVal (c : Char) : Nat :=
  if 48 ≤ c.toNat ∧ c.toNat ≤ 57 then c.toNat - 48
  else if 65 ≤ c.toNat ∧ c.toNat ≤ 70 then c.toNat - 55
  else if 97 ≤ c.toNat ∧ c.toNat ≤ 102 then c.toNat - 87
  else 0

/-- UTF-8 encoding of one character as a list of byte values, the byte
serialisation the ECMAScript URI functions operate on. -/
def utf8Bytes (c : Char) : List Nat :=
  let n := c.toNat
  if n < 128 then [n]
  else if n < 2048 then [192 + n / 64, 128 + n % 64]
  else if n < 65536 then [224 + n / 4096, 128 + n / 64 % 64, 128 + n % 64]
  else [240 + n / 262144, 128 + n / 4096 % 64, 128 + n / 64 % 64, 128 + n % 64]

/-- Percent escapes of a byte list: each byte becomes "%XY" in uppercase hex. -/
def percentChars (bs : List Nat) : List Char :=
  (bs.map (fun b => ['%', hexDigit (b / 16), hexDigit (b % 16)])).flatten

/-- The unreserved set of `encodeURIComponent` (ECMA-262 uriUnescaped):
ASCII alphanumerics and - _ . ! ~ * ' ( ), stated on the code point. -/
def uriUnescaped (c : Char) : Bool :=
  let n := c.toNat
  (65 ≤ n && n ≤ 90) || (97 ≤ n && n ≤ 122) || (48 ≤ n && n ≤ 57) ||
    n == 45 || n == 95 || n == 46 || n == 33 || n == 126 || n == 42 ||
    n == 39 || n == 40 || n == 41

/-- Characters of `encodeURIComponent s`: unreserved characters pass through,
every other character contributes the percent escapes of its UTF-8 bytes. -/
def encodeURIChars : List Char → List Char
  | [] => []
  | c :: cs =>
      (if uriUnescaped c then [c] else percentChars (utf8Bytes c)) ++ encodeURIChars cs

/-- Model of the ECMAScript builtin `encodeURIComponent`. -/
def encodeURIComponent (s : String) : String :=
  String.mk (encodeURIChars s.data)

/-- Percent-decoding scan of `decodeURIComponent`: every "%XY" escape yields
the byte XY; any other character contributes its own UTF-8 bytes. -/
def percentScan : List Char → List Nat
  | [] => []
  | '%' :: h1 :: h2 :: rest => (16 * hexVal h1 + hexVal h2) :: percentScan rest
  | c :: rest => utf8Bytes c ++ percentScan rest

/-- UTF-8 decoding of a byte list as a byte-at-a-time state machine: the
state carries the partial code point and the number of continuation bytes
still expected (lenient on malformed input, which never arises from
`encodeURIComponent` output). -/
def utf8DecodeLoop : Option (Nat × Nat) → List Nat → List Char
  | _, [] => []
  | none, b :: bs =>
      if b < 128 then Char.ofNat b :: utf8DecodeLoop none bs
      else if b < 224 then utf8DecodeLoop (some (b - 192, 1)) bs
      else if b < 240 then utf8DecodeLoop (some (b - 224, 2)) bs
      else utf8DecodeLoop (some (b - 240, 3)) bs
  | some (acc, k), b :: bs =>
      if k = 1 then Char.ofNat (acc * 64 + (b - 128)) :: utf8DecodeLoop none bs
      else utf8DecodeLoop (some (acc * 64 + (b - 128), k - 1)) bs

/-- UTF-8 decoding of a byte list, starting with no pending sequence. -/
def utf8Decode (l : List Nat) : List Char :=
  utf8DecodeLoop none l

/-- Model of the ECMAScript builtin `decodeURIComponent`. -/
def decodeURIComponent (s : String) : String :=
  String.mk (utf8Decode (percentScan s.data))

/-- The unreserved set of `application/x-www-form-urlencoded` serialisation
as used by `URLSearchParams.toString`: ASCII alphanumerics and * - . _ . -/
def formUnreserved (c : Char) : Bool :=
  let n := c.toNat
  (65 ≤ n && n ≤ 90) || (97 ≤ n && n ≤ 122) || (48 ≤ n && n ≤ 57) ||
    n == 42 || n == 45 || n == 46 || n == 95

/-- Characters of the form-url-encoding of a string: space becomes "+",
unreserved characters pass through, the rest are percent-escaped. -/
def formEncodeChars : List Char → List Char
  | [] => []
  | c :: cs =>
      (if c == ' ' then ['+']
       else if formUnreserved c then [c]
       else percentChars (utf8Bytes c)) ++ formEncodeChars cs

/-- Model of `URLSearchParams.toString`: ampersand-separated key=value pairs,
both form-url-encoded. -/
def urlSearchParamsToString (ps : List (String × String)) : String :=
  String.intercalate "&"
    (ps.map fun p =>
      String.mk (formEncodeChars p.1.data) ++ "=" ++ String.mk (formEncodeChars p.2.data))

/-- JSON values produced by the handler's `JSON.stringify` calls. -/
inductive Json where
  | str (s : String)
  | bool (b : Bool)
  | num (n : Int)
  | arr (elems : List Json)
  | obj (fields : List (String × Json))

/-- Lowercase hexadecimal digit used in the \u00XY escapes of
`JSON.stringify`. -/
def hexDigitLower (n : Nat) : Char :=
  if n < 10 then Char.ofNat (48 + n) else Char.ofNat (87 + n)

/-- `JSON.stringify` escaping of one character of a string value. -/
def jsonEscapeChar (c : Char) : List Char :=
  if c == '"' then ['\\', '"']
  else if c == '\\' then ['\\', '\\']
  else if c == '\x08' then ['\\', 'b']
  else if c == '\x0c' then ['\\', 'f']
  else if c == '\n' then ['\\', 'n']
  else if c == '\r' then ['\\', 'r']
  else if c == '\t' then ['\\', 't']
  else if c.toNat < 32 then
    ['\\', 'u', '0', '0', hexDigitLower (c.toNat / 16), hexDigitLower (c.toNat % 16)]
  else [c]

/-- A JSON string literal: quoted, with characters escaped. -/
def jsonQuote (s : String) : String :=
  "\"" ++ String.mk ((s.data.map jsonEscapeChar).flatten) ++ "\""

/-- A run of `n` spaces of indentation. -/
def indentSpaces (n : Nat) : String :=
  String.mk (List.replicate n ' ')

/-- Model of `JSON.stringify(v, null, 2)` at indentation level `ind`:
primitive values render inline; a non-empty array or object renders its
members one per line, two spaces deeper, comma separated. -/
def renderJson (ind : Nat) (j : Json) : String :=
  match j with
  | .str s => jsonQuote s
  | .bool b => if b then "true" else "false"
  | .num n => toString n
  | .arr xs =>
      if xs.isEmpty then "[]"
      else
        "[\n" ++
          String.intercalate ",\n"
            (xs.attach.map (fun x => indentSpaces (ind + 2) ++ renderJson (ind + 2) x.1)) ++
          "\n" ++ indentSpaces ind ++ "]"
  | .obj fs =>
      if fs.isEmpty then "\x7b\x7d"
      else
        "\x7b\n" ++
          String.intercalate ",\n"
            (fs.attach.map (fun f =>
              indentSpaces (ind + 2) ++ jsonQuote f.1.1 ++ ": " ++
                renderJson (ind + 2) f.1.2)) ++
          "\n" ++ indentSpaces ind ++ "\x7d"
termination_by sizeOf j
decreasing_by
  all_goals simp_wf
  · have := List.sizeOf_lt_of_mem x.2
    omega
  · obtain ⟨⟨a, b⟩, hf⟩ := f
    have := List.sizeOf_lt_of_mem hf
    simp only [Prod.mk.sizeOf_spec] at this
    simp only
    omega

/-- Model of `JSON.stringify(v, null, 2)`. -/
def jsonStringify (j : Json) : String :=
  renderJson 0 j

/-- JSON object of one parsed event as serialised inside the responses
(`JSON.stringify` omits object properties whose value is `undefined`). -/
def eventJson (e : CalendarEvent) : Json :=
  .obj
    ((match e.calendar with | some s => [("calendar", Json.str s)] | none => [])
      ++ (match e.title with | some s => [("title", Json.str s)] | none => [])
      ++ (match e.start with | some s => [("start", Json.str s)] | none => [])
      ++ (match e.end_ with | some s => [("end", Json.str s)] | none => [])
      ++ [("location", Json.str e.location)])

/-- The AppleScript program sent by `fantastical_get_today`. -/
def getTodayScript : String :=
  "\nset output to \"\"\nset todayStart to current date\nset hours of todayStart to 0\nset minutes of todayStart to 0\nset seconds of todayStart to 0\nset todayEnd to todayStart + (1 * days)\n\ntell application \"Calendar\"\n  repeat with cal in calendars\n    set calName to name of cal\n    try\n      set calEvents to (every event of cal whose start date >= todayStart and start date < todayEnd)\n      repeat with evt in calEvents\n        set evtTitle to summary of evt\n        set evtStart to start date of evt\n        set evtEnd to end date of evt\n        set evtLoc to location of evt\n        set output to output & calName & \"|\" & evtTitle & \"|\" & (evtStart as string) & \"|\" & (evtEnd as string) & \"|\" & evtLoc & \"\\n\"\n      end repeat\n    end try\n  end repeat\nend tell\nreturn output"

/-- The AppleScript program sent by `fantastical_get_upcoming`, with the
`days` argument interpolated into the range end. -/
def getUpcomingScript (days : Int) : String :=
  "\nset output to \"\"\nset rangeStart to current date\nset hours of rangeStart to 0\nset minutes of rangeStart to 0\nset seconds of rangeStart to 0\nset rangeEnd to rangeStart + (" ++ toString days ++ " * days)\n\ntell application \"Calendar\"\n  repeat with cal in calendars\n    set calName to name of cal\n    try\n      set calEvents to (every event of cal whose start date >= rangeStart and start date < rangeEnd)\n      repeat with evt in calEvents\n        set evtTitle to summary of evt\n        set evtStart to start date of evt\n        set evtEnd to end date of evt\n        set evtLoc to location of evt\n        set output to output & calName & \"|\" & evtTitle & \"|\" & (evtStart as string) & \"|\" & (evtEnd as string) & \"|\" & evtLoc & \"\\n\"\n      end repeat\n    end try\n  end repeat\nend tell\nreturn output"

/-- The AppleScript program sent by `fantastical_get_calendars`. -/
def getCalendarsScript : String :=
  "\nset output to \"\"\ntell application \"Calendar\"\n  repeat with cal in calendars\n    set calName to name of cal\n    set calColor to color of cal\n    set output to output & calName & \"\\n\"\n  end repeat\nend tell\nreturn output"

/-- The suffix appended to the remediation message when the permission-denied
fallback also navigated Fantastical to today's view. -/
def fallbackNote : String :=
  "\n\nFallback: Opened Fantastical to today's view."

/-- The target opened by `fantastical_show_date`: the show-calendar endpoint
with the date segment percent-encoded verbatim. -/
def showDateUrl (date : String) : String :=
  "x-fantastical3://show/calendar/" ++ encodeURIComponent date

/-- The argument bag of a call-tool request, with the fields the six tool
cases destructure; an absent key is `none` (JavaScript `undefined`). -/
structure CallArgs where
  sentence : Option String := none
  calendar : Option String := none
  notes : Option String := none
  addImmediately : Option Bool := none
  days : Option Int := none
  date : Option String := none
  query : Option String := none

/-- A call-tool response: the single text content item and the `isError`
flag (an absent flag is `false`). -/
structure Response where
  text : String
  isError : Bool
deriving DecidableEq, Repr

/-- The body of the call-tool request handler's `try` block, one case per
tool name; `Except.error` is an exception escaping toward the outer catch.
Transcribed from the `CallToolRequestSchema` handler (lines 218-483). -/
def dispatchInner (env : Env) (name : String) (args : CallArgs) :
    Except String Response :=
  match name with
  | "fantastical_create_event" =>
      let addImmediately := args.addImmediately.getD true
      let params :=
        createEventParams (jsStringOf args.sentence) args.calendar args.notes addImmediately
      let url := "x-fantastical3://parse?" ++ urlSearchParamsToString params
      match openFantasticalUrl env url with
      | .error m => .error m
      | .ok _ =>
          .ok { text := jsonStringify (.obj
                  [ ("success", .bool true)
                  , ("message", .str ("Event created: \"" ++ jsStringOf args.sentence ++ "\""))
                  , ("calendar", .str (jsOr args.calendar "default"))
                  , ("addedImmediately", .bool addImmediately) ])
                isError := false }
  | "fantastical_get_today" =>
      match runAppleScriptMultiline env getTodayScript with
      | .ok result =>
          let events := parseEventsToday env.getTime result
          .ok { text := jsonStringify (.obj
                  [ ("date", .str ((jsSplit env.nowIso 'T').headD ""))
                  , ("count", .num events.length)
                  , ("events", .arr (events.map eventJson)) ])
                isError := false }
      | .error e =>
          if isCalendarPermissionError e then
            match openFantasticalUrl env "x-fantastical3://show/calendar/today" with
            | .ok _ =>
                .ok { text := CALENDAR_PERMISSION_MESSAGE ++ fallbackNote
                      isError := true }
            | .error m => .error m
          else .error e
  | "fantastical_get_upcoming" =>
      let days := args.days.getD 7
      match runAppleScriptMultiline env (getUpcomingScript days) with
      | .ok result =>
          let events := parseEventsUpcoming env.getTime result
          .ok { text := jsonStringify (.obj
                  [ ("range", .obj
                      [ ("start", .str ((jsSplit env.nowIso 'T').headD ""))
                      , ("end", .str ((jsSplit (env.endIso days) 'T').headD ""))
                      , ("days", .num days) ])
                  , ("count", .num events.length)
                  , ("events", .arr (events.map eventJson)) ])
                isError := false }
      | .error e =>
          if isCalendarPermissionError e then
            match openFantasticalUrl env "x-fantastical3://show/calendar/today" with
            | .ok _ =>
                .ok { text := CALENDAR_PERMISSION_MESSAGE ++ fallbackNote
                      isError := true }
            | .error m => .error m
          else .error e
  | "fantastical_show_date" =>
      let date := jsStringOf args.date
      match openFantasticalUrl env (showDateUrl date) with
      | .error m => .error m
      | .ok _ =>
          .ok { text := jsonStringify (.obj
                  [ ("success", .bool true)
                  , ("message", .str ("Opened Fantastical to date: " ++ date)) ])
                isError := false }
  | "fantastical_get_calendars" =>
      match runAppleScriptMultiline env getCalendarsScript with
      | .ok result =>
          let calendars := (jsSplit result '\n').filter (fun line => line.trim != "")
          .ok { text := jsonStringify (.obj
                  [ ("count", .num calendars.length)
                  , ("calendars", .arr (calendars.map (fun n => .obj [("name", .str n)]))) ])
                isError := false }
      | .error e =>
          if isCalendarPermissionError e then
            .ok { text := CALENDAR_PERMISSION_MESSAGE, isError := true }
          else .error e
  | "fantastical_search" =>
      let query := jsStringOf args.query
      match openFantasticalUrl env
          ("x-fantastical3://search?query=" ++ encodeURIComponent query) with
      | .error m => .error m
      | .ok _ =>
          .ok { text := jsonStringify (.obj
                  [ ("success", .bool true)
                  , ("message", .str ("Opened Fantastical search for: \"" ++ query ++ "\"")) ])
                isError := false }
  | _ => .error ("Unknown tool: " ++ name)

/-- The call-tool request handler: the switch wrapped in the outer try/catch,
which converts any escaping exception into an error-flagged
"Error: <message>" response (lines 476-482). -/
def handleCallTool (env : Env) (name : String) (args : CallArgs) : Response :=
  match dispatchInner env name args with
  | .ok r => r
  | .error m => { text := "Error: " ++ m, isError := true }

/-- A concrete environment whose every external command fails with the
rejection message "boom"; used to evaluate the handler at failure inputs. -/
def env0 : Env where
  exec := fun _ => .error "boom"
  getTime := fun _ => 0
  nowIso := "2026-10-11T12:00:00.000Z"
  endIso := fun _ => "2026-10-18T12:00:00.000Z"

/-- A concrete environment whose every external command resolves with the
given stdout and empty stderr. -/
def envOk (out : String) : Env where
  exec := fun _ => .ok { stdout := out, stderr := "" }
  getTime := fun _ => 0
  nowIso := "2026-10-11T12:00:00.000Z"
  endIso := fun _ => "2026-10-18T12:00:00.000Z"

/-- A response text is a serialised JSON object carrying the key `k`: it is
the `JSON.stringify` rendering of some field list among whose keys is `k`. -/
def IsJsonObjectWith (k : String) (text : String) : Prop :=
  ∃ fields, text = jsonStringify (Json.obj fields) ∧
    ((fields.map Prod.fst).contains k = true)

/-- Substring containment test agrees with `List.IsInfix`. -/
theorem listContainsSub_iff (needle : List Char) :
    ∀ hay : List Char, listContainsSub hay needle = true ↔ needle <:+: hay := by
  intro hay
  induction hay with
  | nil =>
      simp [listContainsSub, List.isEmpty_iff, List.infix_nil]
  | cons h t ih =>
      simp [listContainsSub, List.infix_cons_iff, ih, List.isPrefixOf_iff_prefix]

/-- A split on a separator that does not occur yields the whole list. -/
theorem splitOnChar_eq_single {sep : Char} :
    ∀ {l : List Char}, (∀ c ∈ l, c ≠ sep) → splitOnChar sep l = [l] := by
  intro l
  induction l with
  | nil => intro _; rfl
  | cons c cs ih =>
      intro h
      have hc : (c == sep) = false := by
        simp only [beq_eq_false_iff_ne]
        exact h c (List.mem_cons_self c cs)
      have ht : splitOnChar sep cs = [cs] :=
        ih fun x hx => h x (List.mem_cons_of_mem c hx)
      simp [splitOnChar, hc, ht]

/-- Rebuilding a string from its character data is the identity. -/
theorem strMk_data (s : String) : String.mk s.data = s := rfl

/-- C3: an execution error is classified as the permission-denied condition
iff its message contains the substring "-1743" or the substring
"Not authorised to send Apple events to Calendar"; a message containing
neither, such as "file not found", is not so classified. -/
theorem c3_permission_classification :
    (∀ msg : String, isCalendarPermissionError msg = true ↔
      ("-1743".data <:+: msg.data ∨
        "Not authorised to send Apple events to Calendar".data <:+: msg.data))
    ∧ isCalendarPermissionError "file not found" = false := by
  constructor
  · intro msg
    simp [isCalendarPermissionError, jsIncludes, Bool.or_eq_true, listContainsSub_iff]
  · decide

/-- C4 counterexample: with the calendar argument supplied as the empty
string, the constructed parameter list carries no calendarName parameter,
refuting "contains a calendarName query parameter iff the calendar argument
was supplied" at this input. -/
theorem c4_counterexample :
    ((some "" : Option String) ≠ none) ∧
      hasParam (createEventParams "Lunch with Sarah" (some "") none true)
        "calendarName" = false := by
  constructor
  · simp
  · decide

/-- C4 as amended: the parameter list always carries s; it carries add=1 iff
addImmediately is true or omitted (destructuring default true); it carries
calendarName iff the calendar argument was supplied with a non-empty value;
and n iff notes was supplied with a non-empty value. -/
theorem c4_create_event_params (sentence : String) (calendar notes : Option String)
    (addIm : Option Bool) :
    hasParam (createEventParams sentence calendar notes (addIm.getD true)) "s" = true
    ∧ (hasParam (createEventParams sentence calendar notes (addIm.getD true)) "add" = true
        ↔ addIm.getD true = true)
    ∧ (hasParam (createEventParams sentence calendar notes (addIm.getD true)) "calendarName" = true
        ↔ ∃ c, calendar = some c ∧ c ≠ "")
    ∧ (hasParam (createEventParams sentence calendar notes (addIm.getD true)) "n" = true
        ↔ ∃ s, notes = some s ∧ s ≠ "") := by
  refine ⟨?_, ?_, ?_, ?_⟩ <;>
    rcases calendar with _ | c <;> rcases notes with _ | n <;>
      rcases addIm with _ | b <;>
        simp [createEventParams, hasParam, jsTruthy, List.any_append]

/-- C9: supplying calendar as the empty string builds the same parameter list
as omitting calendar, and likewise for notes — presence is decided by
truthiness, not by whether the key was supplied. -/
theorem c9_empty_string_like_omitted :
    (∀ (sentence : String) (notes : Option String) (addIm : Bool),
      createEventParams sentence (some "") notes addIm =
        createEventParams sentence none notes addIm)
    ∧ (∀ (sentence : String) (calendar : Option String) (addIm : Bool),
      createEventParams sentence calendar (some "") addIm =
        createEventParams sentence calendar none addIm) := by
  constructor <;> intros <;> rfl

/-- C2 counterexample: a line with no delimiter parses with `title`, `start`
and `end` equal to JavaScript `undefined` (here `none`), not the empty
string, refuting "each missing trailing field is the empty string". -/
theorem c2_counterexample :
    parseEventLine "Work" =
      { calendar := some "Work", title := none, start := none, end_ := none,
        location := "" }
    ∧ (parseEventLine "Work").title ≠ some "" := by
  constructor
  · decide
  · decide

/-- C2 as amended: a line splitting into fewer than 5 fields parses without
error; the missing trailing fields among title, start and end are absent
(JavaScript `undefined`), while a missing fifth field leaves location the
empty string; a line with no "|" at all yields calendar = the whole line,
absent title/start/end, and empty location. -/
theorem c2_short_line_fields (line : String) :
    ((jsSplit line '|').length ≤ 4 → (parseEventLine line).location = "")
    ∧ ((jsSplit line '|').length ≤ 3 → (parseEventLine line).end_ = none)
    ∧ ((jsSplit line '|').length ≤ 2 → (parseEventLine line).start = none)
    ∧ ((jsSplit line '|').length ≤ 1 → (parseEventLine line).title = none)
    ∧ ((∀ c ∈ line.data, c ≠ '|') →
        parseEventLine line =
          { calendar := some line, title := none, start := none, end_ := none,
            location := "" }) := by
  refine ⟨?_, ?_, ?_, ?_, ?_⟩
  · intro h
    simp [parseEventLine, List.getElem?_eq_none h, jsOr]
  · intro h
    simp [parseEventLine, List.getElem?_eq_none (by omega : (jsSplit line '|').length ≤ 3)]
  · intro h
    simp [parseEventLine, List.getElem?_eq_none (by omega : (jsSplit line '|').length ≤ 2)]
  · intro h
    simp [parseEventLine, List.getElem?_eq_none (by omega : (jsSplit line '|').length ≤ 1)]
  · intro h
    have hs : splitOnChar '|' line.data = [line.data] := splitOnChar_eq_single h
    simp [parseEventLine, jsSplit, hs, strMk_data, jsOr]

/-- C2 witness: the amended statement applied to the concrete delimiter-free
line "Work". -/
theorem c2_witness :
    parseEventLine "Work" =
      { calendar := some "Work", title := none, start := none, end_ := none,
        location := "" } :=
  (c2_short_line_fields "Work").2.2.2.2 (by decide)

/-- C10: the raw-output-to-events transformation of `fantastical_get_today`
and the one of `fantastical_get_upcoming` are the same function. -/
theorem c10_today_upcoming_same_parse :
    ∀ (getTime : Option String → Int) (raw : String),
      parseEventsToday getTime raw = parseEventsUpcoming getTime raw :=
  fun _ _ => rfl

/-- C1: any exception escaping a tool case is caught by the outer handler of
the call-tool request handler, which returns a response with isError true and
text "Error: " followed by the exception's message; `handleCallTool` is total,
so no error propagates to the protocol layer. -/
theorem c1_outer_catch (env : Env) (name : String) (args : CallArgs) (m : String)
    (h : dispatchInner env name args = .error m) :
    handleCallTool env name args = { text := "Error: " ++ m, isError := true } := by
  simp [handleCallTool, h]

/-- C1 witness: the unknown-tool exception at a concrete failing environment
is converted into the structured error response. -/
theorem c1_witness :
    handleCallTool env0 "bogus" {} =
      { text := "Error: Unknown tool: bogus", isError := true } :=
  c1_outer_catch env0 "bogus" {} "Unknown tool: bogus" rfl

/-- C7 counterexample: the catalog's tool names are not the bare
create_event, get_today, get_upcoming, show_date, get_calendars, search —
every name carries the fantastical_ prefix. -/
theorem c7_counterexample :
    TOOLS.map ToolDescriptor.name ≠
      ["create_event", "get_today", "get_upcoming", "show_date",
        "get_calendars", "search"] := by
  decide

/-- C7 as amended: the catalog is a static ordered list of exactly six
descriptors named fantastical_create_event, fantastical_get_today,
fantastical_get_upcoming, fantastical_show_date, fantastical_get_calendars,
fantastical_search, in that order; create_event declares sentence required
and calendar, notes, addImmediately optional; get_upcoming declares the one
optional parameter days; show_date requires date; search requires query;
get_today and get_calendars declare no parameters.  The defaults (true for
addImmediately, 7 for days) are applied at dispatch: omitting the argument
dispatches identically to supplying the default. -/
theorem c7_catalog (env : Env) (args : CallArgs) :
    TOOLS.map ToolDescriptor.name =
      ["fantastical_create_event", "fantastical_get_today",
        "fantastical_get_upcoming", "fantastical_show_date",
        "fantastical_get_calendars", "fantastical_search"]
    ∧ TOOLS.length = 6
    ∧ TOOLS.map (fun t => (t.properties.map Prod.fst, t.required)) =
        [ (["sentence", "calendar", "notes", "addImmediately"], ["sentence"])
        , ([], [])
        , (["days"], [])
        , (["date"], ["date"])
        , ([], [])
        , (["query"], ["query"]) ]
    ∧ (args.addImmediately = none →
        dispatchInner env "fantastical_create_event" args =
          dispatchInner env "fantastical_create_event"
            { args with addImmediately := some true })
    ∧ (args.days = none →
        dispatchInner env "fantastical_get_upcoming" args =
          dispatchInner env "fantastical_get_upcoming"
            { args with days := some 7 }) := by
  refine ⟨by decide, by decide, by decide, ?_, ?_⟩
  · intro h
    simp [dispatchInner, h]
  · intro h
    simp [dispatchInner, h]

/-- C7 witness: the amended statement applied at the concrete failing
environment and the empty argument bag, whose addImmediately and days are
both omitted. -/
theorem c7_witness :
    dispatchInner env0 "fantastical_create_event" {} =
      dispatchInner env0 "fantastical_create_event" { addImmediately := some true } :=
  (c7_catalog env0 {}).2.2.2.1 rfl

/-- A stable sort leaves the filter by any tie class unchanged: when all
elements satisfying `p` are pairwise `le`-related, `mergeSort` keeps their
relative order. -/
theorem filter_mergeSort_of_ties {α : Type} (le : α → α → Bool) (p : α → Bool)
    (htrans : ∀ a b c, le a b = true → le b c = true → le a c = true)
    (htotal : ∀ a b, (le a b || le b a) = true)
    (hp : ∀ a b, p a = true → p b = true → le a b = true)
    (l : List α) : (l.mergeSort le).filter p = l.filter p := by
  have hpair : (l.filter p).Pairwise (fun a b => le a b = true) :=
    List.pairwise_of_forall_mem_list
      (fun a ha b hb => hp a b (List.of_mem_filter ha) (List.of_mem_filter hb))
  have hsub : (l.filter p).Sublist (l.mergeSort le) :=
    List.sublist_mergeSort htrans htotal hpair (List.filter_sublist l)
  have hsub2 := hsub.filter p
  rw [List.filter_filter] at hsub2
  have hpp : (fun a => p a && p a) = p := by
    funext a
    cases h : p a <;> simp
  rw [hpp] at hsub2
  have hperm : ((l.mergeSort le).filter p).Perm (l.filter p) :=
    (List.mergeSort_perm l le).filter p
  exact (hsub2.eq_of_length hperm.length_eq.symm).symm

/-- C5: for every raw text and every timestamp interpretation `getTime` of
the host date parser, the parsed event sequence of get_today is sorted
ascending by parsed start timestamp regardless of input order, and the sort
is stable: events with equal parsed start timestamp keep their relative
order from the raw lines. -/
theorem c5_sorted_stable (getTime : Option String → Int) (raw : String) :
    (parseEventsToday getTime raw).Pairwise
      (fun a b => getTime a.start ≤ getTime b.start)
    ∧ ∀ k : Int,
        (parseEventsToday getTime raw).filter (fun e => getTime e.start == k) =
          (rawEventLines raw).filter (fun e => getTime e.start == k) := by
  have htrans : ∀ a b c, eventLE getTime a b = true → eventLE getTime b c = true →
      eventLE getTime a c = true := by
    intro a b c hab hbc
    simp only [eventLE, decide_eq_true_eq] at hab hbc ⊢
    omega
  have htotal : ∀ a b, (eventLE getTime a b || eventLE getTime b a) = true := by
    intro a b
    simp only [eventLE, Bool.or_eq_true, decide_eq_true_eq]
    omega
  constructor
  · have hs := List.sorted_mergeSort htrans htotal (rawEventLines raw)
    refine hs.imp ?_
    intro a b h
    simpa [eventLE, decide_eq_true_eq] using h
  · intro k
    refine filter_mergeSort_of_ties (eventLE getTime) _ htrans htotal ?_ _
    intro a b ha hb
    simp only [beq_iff_eq] at ha hb
    simp [eventLE, ha, hb]

/-- Every Unicode scalar value is below 1114112. -/
theorem char_toNat_lt_size (c : Char) : c.toNat < 1114112 := by
  rcases c.valid with h | h
  · exact Nat.lt_trans h (by norm_num)
  · exact h.2

/-- Hex digits round-trip through the percent-escape alphabet. -/
theorem hexVal_hexDigit : ∀ x : Fin 16, hexVal (hexDigit x.val) = x.val := by
  decide

/-- The UTF-8 encoding of a character consists of byte values. -/
theorem utf8Bytes_lt (c : Char) : ∀ b ∈ utf8Bytes c, b < 256 := by
  intro b hb
  have hv := char_toNat_lt_size c
  simp only [utf8Bytes] at hb
  split_ifs at hb with h1 h2 h3
  · simp at hb
    omega
  · simp at hb
    rcases hb with rfl | rfl <;> omega
  · simp at hb
    rcases hb with rfl | rfl | rfl <;> omega
  · simp at hb
    rcases hb with rfl | rfl | rfl | rfl <;> omega

/-- Scanning a percent escape recovers the escaped byte. -/
theorem percentScan_escape (b : Nat) (hb : b < 256) (rest : List Char) :
    percentScan ('%' :: hexDigit (b / 16) :: hexDigit (b % 16) :: rest) =
      b :: percentScan rest := by
  have h1 : hexVal (hexDigit (b / 16)) = b / 16 := hexVal_hexDigit ⟨b / 16, by omega⟩
  have h2 : hexVal (hexDigit (b % 16)) = b % 16 := hexVal_hexDigit ⟨b % 16, by omega⟩
  show (16 * hexVal (hexDigit (b / 16)) + hexVal (hexDigit (b % 16))) :: percentScan rest =
    b :: percentScan rest
  rw [h1, h2]
  congr 1
  omega

/-- Scanning the percent escapes of a byte list recovers the bytes. -/
theorem percentScan_percentChars (bs : List Nat) (h : ∀ b ∈ bs, b < 256)
    (rest : List Char) :
    percentScan (percentChars bs ++ rest) = bs ++ percentScan rest := by
  induction bs with
  | nil => simp [percentChars]
  | cons b t ih =>
      have hb : b < 256 := h b (List.mem_cons_self b t)
      have ht : ∀ x ∈ t, x < 256 := fun x hx => h x (List.mem_cons_of_mem b hx)
      have hshape : percentChars (b :: t) ++ rest =
          '%' :: hexDigit (b / 16) :: hexDigit (b % 16) :: (percentChars t ++ rest) := by
        simp [percentChars]
      rw [hshape, percentScan_escape b hb, ih ht, List.cons_append]

/-- A character other than the escape introducer scans to its own UTF-8
bytes. -/
theorem percentScan_cons_ne (c : Char) (hc : c ≠ '%') (rest : List Char) :
    percentScan (c :: rest) = utf8Bytes c ++ percentScan rest := by
  rw [percentScan.eq_def]
  split <;> simp_all

/-- Decoding the UTF-8 bytes of a character prepends that character. -/
theorem utf8Decode_utf8Bytes (c : Char) (bs : List Nat) :
    utf8Decode (utf8Bytes c ++ bs) = c :: utf8Decode bs := by
  have hv := char_toNat_lt_size c
  unfold utf8Decode
  by_cases h1 : c.toNat < 128
  · have hby : utf8Bytes c = [c.toNat] := by simp [utf8Bytes, h1]
    rw [hby, List.singleton_append]
    simp only [utf8DecodeLoop]
    rw [if_pos h1, Char.ofNat_toNat]
  · by_cases h2 : c.toNat < 2048
    · have hby : utf8Bytes c = [192 + c.toNat / 64, 128 + c.toNat % 64] := by
        simp [utf8Bytes, h1, h2]
      rw [hby, List.cons_append, List.cons_append, List.nil_append]
      simp only [utf8DecodeLoop]
      rw [if_neg (by omega), if_pos (by omega), if_true]
      have harg : (192 + c.toNat / 64 - 192) * 64 + (128 + c.toNat % 64 - 128) =
          c.toNat := by omega
      rw [harg, Char.ofNat_toNat]
    · by_cases h3 : c.toNat < 65536
      · have hby : utf8Bytes c =
            [224 + c.toNat / 4096, 128 + c.toNat / 64 % 64, 128 + c.toNat % 64] := by
          simp [utf8Bytes, h1, h2, h3]
        rw [hby, List.cons_append, List.cons_append, List.cons_append, List.nil_append]
        simp only [utf8DecodeLoop]
        rw [if_neg (by omega), if_neg (by omega), if_pos (by omega), if_true]
        have harg : ((224 + c.toNat / 4096 - 224) * 64 + (128 + c.toNat / 64 % 64 - 128)) * 64 +
            (128 + c.toNat % 64 - 128) = c.toNat := by omega
        rw [harg, Char.ofNat_toNat]
        simp
      · have hby : utf8Bytes c =
            [240 + c.toNat / 262144, 128 + c.toNat / 4096 % 64,
              128 + c.toNat / 64 % 64, 128 + c.toNat % 64] := by
          simp [utf8Bytes, h1, h2, h3]
        rw [hby, List.cons_append, List.cons_append, List.cons_append,
          List.cons_append, List.nil_append]
        simp only [utf8DecodeLoop]
        rw [if_neg (by omega), if_neg (by omega), if_neg (by omega), if_true]
        have harg : (((240 + c.toNat / 262144 - 240) * 64 + (128 + c.toNat / 4096 % 64 - 128)) * 64 +
            (128 + c.toNat / 64 % 64 - 128)) * 64 + (128 + c.toNat % 64 - 128) = c.toNat := by
          omega
        rw [harg, Char.ofNat_toNat]
        simp

/-- Decoding after scanning the encoded characters recovers the original
character list. -/
theorem utf8Decode_percentScan_encode (cs : List Char) :
    utf8Decode (percentScan (encodeURIChars cs)) = cs := by
  induction cs with
  | nil => rfl
  | cons c t ih =>
      rw [encodeURIChars]
      by_cases hu : uriUnescaped c
      · rw [if_pos hu]
        have hne : c ≠ '%' := by
          intro hEq
          rw [hEq] at hu
          exact absurd hu (by decide)
        simp only [List.singleton_append]
        rw [percentScan_cons_ne c hne, utf8Decode_utf8Bytes, ih]
      · rw [if_neg hu]
        rw [percentScan_percentChars _ (utf8Bytes_lt c) _, utf8Decode_utf8Bytes, ih]

/-- C8: the show_date target is the show-calendar endpoint followed by the
percent-encoded date passed through verbatim, and percent-decoding recovers
exactly the supplied date string — decode after encode is the identity. -/
theorem c8_show_date_roundtrip (date : String) :
    showDateUrl date = "x-fantastical3://show/calendar/" ++ encodeURIComponent date
    ∧ decodeURIComponent (encodeURIComponent date) = date := by
  refine ⟨rfl, ?_⟩
  calc decodeURIComponent (encodeURIComponent date)
      = String.mk (utf8Decode (percentScan (encodeURIChars date.data))) := rfl
    _ = String.mk date.data := by rw [utf8Decode_percentScan_encode]
    _ = date := strMk_data date

/-- A serialised JSON object always begins with an opening brace. -/
theorem jsonStringify_obj_head (fs : List (String × Json)) :
    (jsonStringify (Json.obj fs)).data.head? = some '\x7b' := by
  cases fs with
  | nil =>
      show (renderJson 0 (Json.obj [])).data.head? = some '\x7b'
      unfold renderJson
      rfl
  | cons f t =>
      show (renderJson 0 (Json.obj (f :: t))).data.head? = some '\x7b'
      unfold renderJson
      simp only [List.isEmpty_cons, if_false, Bool.false_eq_true, String.data_append,
        List.head?_append]
      rfl

/-- C6 counterexample: a create_event invocation whose URL open rejects
yields the outer-catch response "Error: boom", whose text is neither a JSON
object with a success or count field nor a permission-denied fallback text —
so the claimed "sole exception" is too narrow. -/
theorem c6_counterexample :
    (handleCallTool env0 "fantastical_create_event" {}).text = "Error: boom"
    ∧ ¬ IsJsonObjectWith "success" (handleCallTool env0 "fantastical_create_event" {}).text
    ∧ ¬ IsJsonObjectWith "count" (handleCallTool env0 "fantastical_create_event" {}).text
    ∧ (handleCallTool env0 "fantastical_create_event" {}).text ≠ CALENDAR_PERMISSION_MESSAGE
    ∧ (handleCallTool env0 "fantastical_create_event" {}).text ≠
        CALENDAR_PERMISSION_MESSAGE ++ fallbackNote := by
  have htext : (handleCallTool env0 "fantastical_create_event" {}).text = "Error: boom" := rfl
  refine ⟨htext, ?_, ?_, ?_, ?_⟩
  · rintro ⟨fs, heq, -⟩
    have h1 := jsonStringify_obj_head fs
    rw [← heq, htext] at h1
    exact absurd h1 (by decide)
  · rintro ⟨fs, heq, -⟩
    have h1 := jsonStringify_obj_head fs
    rw [← heq, htext] at h1
    exact absurd h1 (by decide)
  · rw [htext]
    decide
  · rw [htext]
    decide

/-- C6 as amended: every call-tool response text is a serialised JSON object
with a success field (create_event, show_date, search) or a count field
(get_today, get_upcoming, get_calendars), with the exception of
permission-denied fallback responses (the plain remediation message, possibly
with the fallback note) and of error responses, whose text is "Error: "
followed by the exception's message; the latter two carry isError true. -/
theorem c6_amended (env : Env) (name : String) (args : CallArgs) :
    ((name = "fantastical_create_event" ∨ name = "fantastical_show_date" ∨
        name = "fantastical_search") ∧
      IsJsonObjectWith "success" (handleCallTool env name args).text)
    ∨ ((name = "fantastical_get_today" ∨ name = "fantastical_get_upcoming" ∨
        name = "fantastical_get_calendars") ∧
      IsJsonObjectWith "count" (handleCallTool env name args).text)
    ∨ (((handleCallTool env name args).text = CALENDAR_PERMISSION_MESSAGE ∨
        (handleCallTool env name args).text = CALENDAR_PERMISSION_MESSAGE ++ fallbackNote) ∧
      (handleCallTool env name args).isError = true)
    ∨ (∃ m, (handleCallTool env name args).text = "Error: " ++ m ∧
        (handleCallTool env name args).isError = true) := by
  cases hd : dispatchInner env name args with
  | error m =>
      right; right; right
      have h : handleCallTool env name args = { text := "Error: " ++ m, isError := true } := by
        simp [handleCallTool, hd]
      exact ⟨m, by rw [h], by rw [h]⟩
  | ok resp =>
      have hresp : handleCallTool env name args = resp := by
        simp [handleCallTool, hd]
      rw [hresp]
      by_cases h1 : name = "fantastical_create_event"
      · subst h1
        unfold dispatchInner at hd
        split at hd <;>
          first
          | (rename_i heq; exact absurd heq (by decide))
          | exact Except.noConfusion hd
          | (simp only [] at hd
             split at hd
             · exact Except.noConfusion hd
             · injection hd with h
               subst h
               exact Or.inl ⟨Or.inl rfl, ⟨_, rfl, rfl⟩⟩)
      by_cases h2 : name = "fantastical_get_today"
      · subst h2
        unfold dispatchInner at hd
        split at hd <;>
          first
          | (rename_i heq; exact absurd heq (by decide))
          | exact Except.noConfusion hd
          | (split at hd
             · injection hd with h
               subst h
               exact Or.inr (Or.inl ⟨Or.inl rfl, ⟨_, rfl, rfl⟩⟩)
             · split at hd
               · split at hd
                 · injection hd with h
                   subst h
                   exact Or.inr (Or.inr (Or.inl ⟨Or.inr rfl, rfl⟩))
                 · exact Except.noConfusion hd
               · exact Except.noConfusion hd)
      by_cases h3 : name = "fantastical_get_upcoming"
      · subst h3
        unfold dispatchInner at hd
        split at hd <;>
          first
          | (rename_i heq; exact absurd heq (by decide))
          | exact Except.noConfusion hd
          | (simp only [] at hd
             split at hd
             · injection hd with h
               subst h
               exact Or.inr (Or.inl ⟨Or.inr (Or.inl rfl), ⟨_, rfl, rfl⟩⟩)
             · split at hd
               · split at hd
                 · injection hd with h
                   subst h
                   exact Or.inr (Or.inr (Or.inl ⟨Or.inr rfl, rfl⟩))
                 · exact Except.noConfusion hd
               · exact Except.noConfusion hd)
      by_cases h4 : name = "fantastical_show_date"
      · subst h4
        unfold dispatchInner at hd
        split at hd <;>
          first
          | (rename_i heq; exact absurd heq (by decide))
          | exact Except.noConfusion hd
          | (simp only [] at hd
             split at hd
             · exact Except.noConfusion hd
             · injection hd with h
               subst h
               exact Or.inl ⟨Or.inr (Or.inl rfl), ⟨_, rfl, rfl⟩⟩)
      by_cases h5 : name = "fantastical_get_calendars"
      · subst h5
        unfold dispatchInner at hd
        split at hd <;>
          first
          | (rename_i heq; exact absurd heq (by decide))
          | exact Except.noConfusion hd
          | (split at hd
             · injection hd with h
               subst h
               exact Or.inr (Or.inl ⟨Or.inr (Or.inr rfl), ⟨_, rfl, rfl⟩⟩)
             · split at hd
               · injection hd with h
                 subst h
                 exact Or.inr (Or.inr (Or.inl ⟨Or.inl rfl, rfl⟩))
               · exact Except.noConfusion hd)
      by_cases h6 : name = "fantastical_search"
      · subst h6
        unfold dispatchInner at hd
        split at hd <;>
          first
          | (rename_i heq; exact absurd heq (by decide))
          | exact Except.noConfusion hd
          | (simp only [] at hd
             split at hd
             · exact Except.noConfusion hd
             · injection hd with h
               subst h
               exact Or.inl ⟨Or.inr (Or.inr rfl), ⟨_, rfl, rfl⟩⟩)
      · unfold dispatchInner at hd
        split at hd <;> simp_all
